import Mathlib

/-!
Verification of the FullStackAssistant retrieval pipeline.

Shallow embedding of the algorithmic core of the repository:
* `src/lambda_functions/data_ingestion/lambda_function_v2.py`
  (`ChunkingConfig`, `split_text`, the chunk-processing loop of
  `lambda_handler` with its embedding retry logic), and
* `src/lambda_functions/query_processor/lambda_function.py`
  (`cosine_similarity`, the scoring loop and the balanced selection of
  `search_similar_chunks_balanced`, `invoke_claude_3`, and the query
  branch of `lambda_handler`).

Python `int` arithmetic on the involved non-negative quantities is
modelled with `Nat` (with comments where Python's clamp-to-zero matches
`Nat` truncated subtraction).  Scores, which are Python floats combined
only by `+`, `/`, `min` and order comparisons, are modelled with real
numbers for the scorer; the selection logic, which only compares scores,
is parametrised over a linear order so that it can be run on decidable
score types.  External AWS calls (S3, DynamoDB, Bedrock) are modelled as
oracle parameters.
-/

namespace FullStackAssistant

/-! ## ChunkingConfig (`lambda_function_v2.py`, lines 24-117) -/

/-- Table `ChunkingConfig.CHUNK_SIZES[file_type][size_category]`.
Keys absent from the Python dict (which would raise `KeyError`) are mapped
to 0; `get_chunking_parameters` only ever uses the listed keys. -/
def CHUNK_SIZES : String → String → Nat
  | "PDF", "small" => 2000
  | "PDF", "medium" => 2500
  | "PDF", "large" => 3000
  | "PDF", "xlarge" => 3500
  | "CSV", "small" => 1500
  | "CSV", "medium" => 2000
  | "CSV", "large" => 2500
  | "CSV", "xlarge" => 3000
  | _, _ => 0

/-- Table `ChunkingConfig.OVERLAP_PERCENTAGES`, represented as an integer
percentage (15 for the Python float `0.15`, 10 for `0.10`).  For every
chunk size in `CHUNK_SIZES` (all multiples of 500),
`int(size * 0.15)` resp. `int(size * 0.10)` computed with IEEE doubles
equals `size * 15 / 100` resp. `size * 10 / 100` in exact arithmetic. -/
def OVERLAP_PERCENT : String → Nat
  | "PDF" => 15
  | "CSV" => 10
  | _ => 0

/-- Table `ChunkingConfig.MAX_CHUNKS_CONFIG[file_type][size_category]`. -/
def MAX_CHUNKS_CONFIG : String → String → Nat
  | "PDF", "small" => 20
  | "PDF", "medium" => 50
  | "PDF", "large" => 80
  | "PDF", "xlarge" => 120
  | "CSV", "small" => 15
  | "CSV", "medium" => 30
  | "CSV", "large" => 50
  | "CSV", "xlarge" => 75
  | _, _ => 0

/-- Function `ChunkingConfig.get_size_category(file_size, file_type)`:
byte-size breakpoints, `PDF` vs anything else (`CSV`). -/
def get_size_category (file_size : Nat) (file_type : String) : String :=
  if file_type = "PDF" then
    if file_size < 100 * 1024 then "small"
    else if file_size < 500 * 1024 then "medium"
    else if file_size < 1024 * 1024 then "large"
    else "xlarge"
  else
    if file_size < 50 * 1024 then "small"
    else if file_size < 200 * 1024 then "medium"
    else if file_size < 500 * 1024 then "large"
    else "xlarge"

/-- Result dict of `ChunkingConfig.get_chunking_parameters`. -/
structure ChunkingParams where
  chunk_size : Nat
  chunk_overlap : Nat
  max_chunks : Nat
  size_category : String
deriving DecidableEq, Repr

/-- Function `ChunkingConfig.get_chunking_parameters(file_size, file_type)`.
`chunk_overlap` is `int(chunk_size * overlap_percentage)`, i.e. the
truncated product, which on the table's values equals
`chunk_size * percent / 100` in `Nat` arithmetic. -/
def get_chunking_parameters (file_size : Nat) (file_type : String) :
    ChunkingParams :=
  let size_category := get_size_category file_size file_type
  { chunk_size := CHUNK_SIZES file_type size_category
    chunk_overlap :=
      CHUNK_SIZES file_type size_category * OVERLAP_PERCENT file_type / 100
    max_chunks := MAX_CHUNKS_CONFIG file_type size_category
    size_category := size_category }

/-! ## split_text (`lambda_function_v2.py`, lines 250-284)

The Python loop is

    chunks = []
    start = 0
    while start < len(text) and len(chunks) < max_chunks:
        end = start + chunk_size
        if end > len(text):
            end = len(text)
        chunk = text[start:end]
        chunks.append(chunk)
        start = end - chunk_overlap
        if start < 0:
            start = 0
        if start >= len(text):
            break
    return chunks

Each iteration appends exactly one chunk, so the remaining chunk budget
`max_chunks - len(chunks)` decreases by one on every iteration; the
recursion below is structural on that budget, and conses the chunk that
the iteration appends.  `start` and `end` are non-negative throughout
(`start` is clamped to 0 by the Python code, which is exactly `Nat`
truncated subtraction in `end - chunk_overlap`). -/

/-- Python slice `text[a:b]` for `0 ≤ a ≤ b` (character counting). -/
def pySlice (text : String) (a b : Nat) : String :=
  String.mk ((text.toList.drop a).take (b - a))

/-- The `while` loop of `split_text`; `budget = max_chunks - len(chunks)`. -/
def splitTextGo (text : String) (chunk_size chunk_overlap : Nat) :
    Nat → Nat → List String
  | 0, _ => []
  | budget + 1, start =>
    if start < text.length then
      let e := min (start + chunk_size) text.length
      let chunk := pySlice text start e
      let start' := e - chunk_overlap
      if text.length ≤ start' then [chunk]
      else chunk :: splitTextGo text chunk_size chunk_overlap budget start'
    else []

/-- Function `split_text(text, chunk_size, chunk_overlap, max_chunks)`. -/
def split_text (text : String) (chunk_size chunk_overlap max_chunks : Nat) :
    List String :=
  splitTextGo text chunk_size chunk_overlap max_chunks 0

/-- A step-counting variant of the `split_text` loop: `fuel` counts loop
iterations still permitted, and `none` means the iteration bound was hit
while the loop was still running.  Used to state that the loop terminates
within `max_chunks + 1` iterations. -/
def splitTextFuel (text : String) (chunk_size chunk_overlap : Nat) :
    Nat → Nat → Nat → Option (List String)
  | 0, _, _ => none
  | fuel + 1, budget, start =>
    match budget with
    | 0 => some []
    | budget' + 1 =>
      if start < text.length then
        let e := min (start + chunk_size) text.length
        let chunk := pySlice text start e
        let start' := e - chunk_overlap
        if text.length ≤ start' then some [chunk]
        else
          match splitTextFuel text chunk_size chunk_overlap fuel budget' start' with
          | none => none
          | some rest => some (chunk :: rest)
      else some []

theorem splitTextGo_length_le (text : String) (cs co : Nat) :
    ∀ budget start, (splitTextGo text cs co budget start).length ≤ budget := by
  intro budget
  induction budget with
  | zero => intro start; simp [splitTextGo]
  | succ n ih =>
    intro start
    simp only [splitTextGo]
    split
    · split
      · simp
      · simpa using Nat.succ_le_succ (ih _)
    · simp

theorem splitTextFuel_complete (text : String) (cs co : Nat) :
    ∀ fuel budget start, budget < fuel →
      splitTextFuel text cs co fuel budget start =
        some (splitTextGo text cs co budget start) := by
  intro fuel
  induction fuel with
  | zero => intro budget start h; omega
  | succ n ih =>
    intro budget start h
    match budget with
    | 0 => simp [splitTextFuel, splitTextGo]
    | b + 1 =>
      simp only [splitTextFuel, splitTextGo]
      split
      · split
        · rfl
        · rw [ih b _ (by omega)]
      · rfl

/-- Python's `str.strip()`: drop leading and trailing whitespace
(modelled over the character list). -/
def pyStrip (s : String) : String :=
  String.mk
    (((s.toList.dropWhile Char.isWhitespace).reverse.dropWhile
      Char.isWhitespace).reverse)

/-! ## Records of the query path
(`query_processor/lambda_function.py`)

A DynamoDB item, as scanned back by `search_similar_chunks_balanced`.
The stored `embedding` attribute is a JSON string; `json.loads` either
yields a float vector or raises, which is modelled by `Option`:
`some v` is a successful parse, `none` a parse failure (the `except`
branch of the scoring loop). -/

structure DBItem where
  document_id : String
  chunk_id : String
  source_file : String
  content : String
  embedding : Option (List ℝ)

/-- The dedup key `f"{item.get('document_id')}_{item.get('chunk_id')}"`
of the selection's `unique_chunks` dict. -/
def itemKey (it : DBItem) : String := it.document_id ++ "_" ++ it.chunk_id

/-! ## Balanced selection (`search_similar_chunks_balanced`, lines 186-221)

The selection consumes scored candidates `(final_score, item)` and only
ever compares scores, so it is stated over an arbitrary linear order of
scores; the pipeline instantiates it with `ℝ`.

Python's `list.sort(key=lambda x: x[0], reverse=True)` is the stable
descending sort by score; a stable sort is uniquely determined by the
(pre)order, so the stable insertion sort below computes the same list. -/

section Selection

variable {α : Type} [LinearOrder α]

/-- Stable descending insertion by score (`x.1`): an element is placed
before the first strictly smaller-scored element, after equal scores. -/
def insertDesc (x : α × DBItem) : List (α × DBItem) → List (α × DBItem)
  | [] => [x]
  | y :: ys => if y.1 ≤ x.1 then x :: y :: ys else y :: insertDesc x ys

/-- Stable descending sort by score: `sort(key=lambda x: x[0], reverse=True)`. -/
def sortDesc : List (α × DBItem) → List (α × DBItem)
  | [] => []
  | x :: xs => insertDesc x (sortDesc xs)

/-- First-occurrence deduplication, the key order of a Python dict built
by repeated insertion (`items_by_source` keys, and the key list of
`unique_chunks`). -/
def pyDedup (l : List String) : List String :=
  l.foldl (fun acc k => if k ∈ acc then acc else acc ++ [k]) []

/-- The keys of `items_by_source`: distinct `source_file` values in first
occurrence order.  (In the code the grouping dict is built from the
scanned items before scoring; over already-scored candidates — the
setting of the selection claims — those are the candidates' items.) -/
def sourceFiles (cands : List (α × DBItem)) : List String :=
  pyDedup (cands.map fun c => c.2.source_file)

/-- Value `chunks_per_document = max(2, limit // len(items_by_source))
if items_by_source else limit`. -/
def chunksPerDocument (cands : List (α × DBItem)) (limit : Nat) : Nat :=
  if sourceFiles cands = [] then limit
  else max 2 (limit / (sourceFiles cands).length)

/-- Strategy 1 (balanced pool): for each source document, the scored
candidates of that document, re-sorted, truncated to
`chunks_per_document`.  (`all_similarities` is already sorted when it is
filtered; the Python code sorts the filtered list again, a stable no-op
kept here for fidelity.) -/
def balancedPool (cands : List (α × DBItem)) (limit : Nat) :
    List (α × DBItem) :=
  (sourceFiles cands).flatMap fun src =>
    (sortDesc ((sortDesc cands).filter fun c => c.2.source_file = src)).take
      (chunksPerDocument cands limit)

/-- Strategy 2 (quality pool): `all_similarities[:min(6, limit)]`. -/
def qualityPool (cands : List (α × DBItem)) (limit : Nat) :
    List (α × DBItem) :=
  (sortDesc cands).take (min 6 limit)

/-- List `selected_chunks`: balanced pool extended with the quality pool. -/
def selectedPool (cands : List (α × DBItem)) (limit : Nat) :
    List (α × DBItem) :=
  balancedPool cands limit ++ qualityPool cands limit

/-- Dict lookup: the value bound to `k`, scanning an association list
whose keys are unique. -/
def dictFind (m : List (String × (α × DBItem))) (k : String) :
    Option (α × DBItem) :=
  match m with
  | [] => none
  | (k', v) :: rest => if k' = k then some v else dictFind rest k

/-- One step of the `unique_chunks` dict construction:
`if chunk_id not in unique_chunks or score > unique_chunks[chunk_id][0]:
unique_chunks[chunk_id] = (score, item)`.  A Python dict preserves
insertion order and updates in place, hence the association list with
in-place replacement. -/
def dictUpsert (m : List (String × (α × DBItem))) (k : String)
    (v : α × DBItem) : List (String × (α × DBItem)) :=
  match dictFind m k with
  | none => m ++ [(k, v)]
  | some w => if w.1 < v.1 then m.map (fun p => if p.1 = k then (k, v) else p) else m

/-- The `unique_chunks` dict after folding `selected_chunks`. -/
def uniqueChunks (pool : List (α × DBItem)) :
    List (String × (α × DBItem)) :=
  pool.foldl (fun m c => dictUpsert m (itemKey c.2) c) []

/-- List `final_chunks`: dict values sorted by descending score. -/
def finalChunks (cands : List (α × DBItem)) (limit : Nat) :
    List (α × DBItem) :=
  sortDesc ((uniqueChunks (selectedPool cands limit)).map fun p => p.2)

/-- The selection logic of `search_similar_chunks_balanced` over already
scored candidates: `[item for score, item in final_chunks[:limit]]`. -/
def searchSelect (cands : List (α × DBItem)) (limit : Nat) : List DBItem :=
  ((finalChunks cands limit).take limit).map fun c => c.2

end Selection

/-! ## Similarity scoring
(`cosine_similarity`, lines 65-102, and the scoring loop of
`search_similar_chunks_balanced`, lines 162-186)

Python float arithmetic is modelled by exact real arithmetic. -/

/-- Python `sum(x * y for x, y in zip(vec1, vec2))`. -/
def dotProduct : List ℝ → List ℝ → ℝ
  | x :: xs, y :: ys => x * y + dotProduct xs ys
  | _, _ => 0

/-- Python `sum(x * x for x in vec)`. -/
def sumSq : List ℝ → ℝ
  | [] => 0
  | x :: xs => x * x + sumSq xs

/-- Python `math.sqrt(sum(x * x for x in vec))`. -/
noncomputable def magnitude (v : List ℝ) : ℝ := Real.sqrt (sumSq v)

/-- Function `cosine_similarity(vec1, vec2)`: dot product over the zipped vectors,
normalised by the product of the magnitudes, `0.0` if either magnitude is
zero. -/
noncomputable def cosine_similarity (vec1 vec2 : List ℝ) : ℝ :=
  if magnitude vec1 = 0 ∨ magnitude vec2 = 0 then 0
  else dotProduct vec1 vec2 / (magnitude vec1 * magnitude vec2)

/-- Value `length_bonus = min(content_length / 800, 0.15)`. -/
noncomputable def lengthBonus (content : String) : ℝ :=
  min ((content.length : ℝ) / 800) 0.15

/-- Value `final_score = similarity + length_bonus` for one candidate record
with parsed embedding `emb` and stored `content`. -/
noncomputable def finalScore (query_embedding emb : List ℝ)
    (content : String) : ℝ :=
  cosine_similarity query_embedding emb + lengthBonus content

/-- The scoring loop of `search_similar_chunks_balanced` (lines 162-186):
each item's embedding is parsed and scored inside `try`; a parse failure
(`item.embedding = none`) hits the `except` branch, which logs and
`continue`s, so the item is dropped and the loop proceeds. -/
noncomputable def scoreCandidates (query_embedding : List ℝ) :
    List DBItem → List (ℝ × DBItem)
  | [] => []
  | it :: rest =>
    match it.embedding with
    | none => scoreCandidates query_embedding rest
    | some emb =>
      (finalScore query_embedding emb it.content, it) ::
        scoreCandidates query_embedding rest

/-- Function `search_similar_chunks_balanced(query_embedding, limit)` given the
scanned table contents `items`: score all candidates, then apply the
balanced selection. -/
noncomputable def search_similar_chunks_balanced (query_embedding : List ℝ)
    (items : List DBItem) (limit : Nat) : List DBItem :=
  searchSelect (scoreCandidates query_embedding items) limit

/-! ## invoke_claude_3 and the query branch of lambda_handler
(`query_processor/lambda_function.py`, lines 223-436)

The Bedrock language-model call is an oracle `provider : String →
Except String String` mapping the prompt to either the generated text or
the error message `str(e)` of the raised exception. -/

/-- Function `invoke_claude_3(prompt)`: returns the model text, or on any
exception returns the error message embedded in a fixed notice instead
of raising. -/
def invoke_claude_3 (provider : String → Except String String)
    (prompt : String) : String :=
  match provider prompt with
  | .ok text => text
  | .error e => "Error: Unable to generate response. " ++ e

/-- Context assembly (Step 3 of `lambda_handler`): chunk contents with a
document marker interleaved whenever `source_file` changes from the
previous chunk (`current_document` tracking). -/
def buildContextParts (current_document : Option String) :
    List DBItem → List String
  | [] => []
  | c :: cs =>
    if current_document = some c.source_file then
      c.content :: buildContextParts current_document cs
    else
      ("\n--- Document: " ++ c.source_file ++ " ---") :: c.content ::
        buildContextParts (some c.source_file) cs

/-- Value `context = "\n".join(context_parts)`. -/
def buildContext (chunks : List DBItem) : String :=
  String.intercalate "\n" (buildContextParts none chunks)

/-- Step 4 of `lambda_handler`: `prompt_template.format(context=..,
question=..)`, with the fixed instruction text abbreviated to its
boundary markers around the two interpolated holes. -/
def buildPrompt (context question : String) : String :=
  "You are an expert assistant that analyzes information from multiple documents. \n\n            IMPORTANT INSTRUCTIONS:\n            ...\n\n            CONTEXT FROM MULTIPLE DOCUMENTS:\n            "
    ++ context ++ "\n\n            QUESTION: " ++ question ++
    "\n\n            Provide a comprehensive response integrating information from ALL relevant documents. \n            If you use information from a specific document, mention it briefly."

/-- The HTTP response of the query handler, with the JSON body fields
flattened: a 400 error body, or a 200 body carrying `answer`, `sources`,
`context_chunks` and `documents_used`. -/
inductive HandlerResult where
  | badRequest (error : String)
  | success (answer : String) (sources : List String)
      (context_chunks documents_used : Nat)
deriving DecidableEq, Repr

/-- Status code of a `HandlerResult`. -/
def HandlerResult.status : HandlerResult → Nat
  | .badRequest _ => 400
  | .success _ _ _ _ => 200

/-- The `answer` field of a 200 body, if any. -/
def HandlerResult.answerText : HandlerResult → Option String
  | .badRequest _ => none
  | .success a _ _ _ => some a

/-- The query branch of `lambda_handler` (lines 342-436), with the
already extracted question `query`, the chunks returned by the balanced
search, and the language-model oracle as inputs.  `sources =
list(set(...))` is modelled as first-occurrence deduplication (Python's
set iteration order is unspecified; no claim depends on that order). -/
def lambda_handler_query (provider : String → Except String String)
    (query : String) (similar_chunks : List DBItem) : HandlerResult :=
  if pyStrip query = "" then .badRequest "No question provided"
  else if similar_chunks.isEmpty then
    .success
      ("No relevant information found in the documents. " ++
        "Please try a different question or ensure documents have been processed.")
      [] 0 0
  else
    let sources := pyDedup (similar_chunks.map fun c => c.source_file)
    let context := buildContext similar_chunks
    let prompt := buildPrompt context query
    let response := invoke_claude_3 provider prompt
    .success response sources similar_chunks.length sources.length

/-! ## Ingestion chunk loop
(`data_ingestion/lambda_function_v2.py`, `lambda_handler` lines 349-395)

The Titan embedding provider is an oracle indexed by chunk index and
attempt number: `embedder i a` is the outcome of the `a`-th
`get_titan_embeddings` call for chunk `i` (`.ok` a vector, `.error` the
message of the raised exception).  `table.put_item` is an external
append that the handler never observes failing in this model. -/

/-- A DynamoDB item written by the ingestion loop. -/
structure StoredChunk where
  document_id : String
  chunk_id : String
  content : String
  embedding : List ℚ
  source_file : String
  file_type : String
  file_size : Nat
  size_category : String
  chunk_size : Nat
  chunk_index : Nat
  total_chunks : Nat
  created_at : String
deriving DecidableEq, Repr

/-- Document-level metadata threaded into every stored item. -/
structure IngestMeta where
  document_id : String
  source_file : String
  file_type : String
  file_size : Nat
  size_category : String
  created_at : String
deriving DecidableEq, Repr

/-- Accumulated loop state: items written so far, `processed_chunks`,
`failed_chunks`. -/
structure IngestState where
  stored : List StoredChunk
  processed : Nat
  failed : Nat
deriving DecidableEq, Repr

/-- Constant `max_retries = 3`. -/
def max_retries : Nat := 3

/-- The retry loop `for attempt in range(max_retries)` over the remaining
attempt numbers: a success breaks out, a failure on the last attempt
re-raises, and every other failure sleeps `2 ** attempt` seconds (the
recorded sleep durations are returned alongside the outcome). -/
def embedRetryGo (f : Nat → Except String (List ℚ)) :
    List Nat → Except String (List ℚ) × List Nat
  | [] => (.error "", [])
  | [a] => (f a, [])
  | a :: b :: rest =>
    match f a with
    | .ok e => (.ok e, [])
    | .error _ =>
      let r := embedRetryGo f (b :: rest)
      (r.1, 2 ^ a :: r.2)

/-- Embedding generation with retry for one chunk:
`for attempt in range(max_retries)`. -/
def embedWithRetry (f : Nat → Except String (List ℚ)) :
    Except String (List ℚ) × List Nat :=
  embedRetryGo f (List.range max_retries)

/-- Is a chunk skipped by
`if not chunk.strip() or len(chunk.strip()) < 50: continue`? -/
def chunkSkipped (chunk : String) : Prop :=
  pyStrip chunk = "" ∨ (pyStrip chunk).length < 50

instance (chunk : String) : Decidable (chunkSkipped chunk) := by
  unfold chunkSkipped; infer_instance

/-- The item dict stored for chunk `i`:
content truncated to 2000 characters, `chunk_id = f"chunk_{i}"`,
`chunk_size = len(chunk)` (untruncated), `total_chunks = len(chunks)`. -/
def mkStored (meta : IngestMeta) (total i : Nat) (chunk : String)
    (emb : List ℚ) : StoredChunk :=
  { document_id := meta.document_id
    chunk_id := "chunk_" ++ toString i
    content := String.mk (chunk.toList.take 2000)
    embedding := emb
    source_file := meta.source_file
    file_type := meta.file_type
    file_size := meta.file_size
    size_category := meta.size_category
    chunk_size := chunk.length
    chunk_index := i
    total_chunks := total
    created_at := meta.created_at }

/-- The body of `for i, chunk in enumerate(chunks)`: skip short chunks,
embed with retry, and either count a failure or append the stored item
and count a success.  (`put_item` exceptions are not modelled; the store
is an always-accepting append.) -/
def processChunk (meta : IngestMeta) (f : Nat → Except String (List ℚ))
    (total i : Nat) (chunk : String) (st : IngestState) : IngestState :=
  if chunkSkipped chunk then st
  else
    match (embedWithRetry f).1 with
    | .error _ => { st with failed := st.failed + 1 }
    | .ok emb =>
      { st with
        stored := st.stored ++ [mkStored meta total i chunk emb]
        processed := st.processed + 1 }

/-- The loop `for i, chunk in enumerate(chunks)` over the enumerated
chunk list. -/
def ingestGo (meta : IngestMeta) (embedder : Nat → Nat → Except String (List ℚ))
    (total : Nat) : List (Nat × String) → IngestState → IngestState
  | [], st => st
  | (i, c) :: rest, st =>
    ingestGo meta embedder total rest (processChunk meta (embedder i) total i c st)

/-- The whole chunk-processing loop of the ingestion `lambda_handler`
over the output of `split_text`. -/
def ingestChunks (meta : IngestMeta)
    (embedder : Nat → Nat → Except String (List ℚ))
    (chunks : List String) : IngestState :=
  ingestGo meta embedder chunks.length chunks.enum ⟨[], 0, 0⟩

/-- Does the loop store enumerated chunk `p`?  Exactly when the chunk
passes the length filter and its retried embedding call succeeds. -/
def storedAt (embedder : Nat → Nat → Except String (List ℚ))
    (p : Nat × String) : Bool :=
  !(decide (chunkSkipped p.2)) && (embedWithRetry (embedder p.1)).1.isOk

/-- Does the loop count enumerated chunk `p` as failed?  Exactly when
the chunk passes the length filter and its retried embedding call
exhausts all attempts. -/
def failedAt (embedder : Nat → Nat → Except String (List ℚ))
    (p : Nat × String) : Bool :=
  !(decide (chunkSkipped p.2)) && !(embedWithRetry (embedder p.1)).1.isOk

/-- The embedding vector of a successful retried call. -/
def okEmb : Except String (List ℚ) → List ℚ
  | .ok e => e
  | .error _ => []

/-! ## Lemmas about the stable descending sort -/

section SortLemmas

variable {α : Type} [LinearOrder α]

theorem insertDesc_perm (x : α × DBItem) (l : List (α × DBItem)) :
    (insertDesc x l).Perm (x :: l) := by
  induction l with
  | nil => simp [insertDesc]
  | cons y ys ih =>
    simp only [insertDesc]
    split
    · exact List.Perm.refl _
    · exact (ih.cons y).trans (List.Perm.swap x y ys)

theorem sortDesc_perm (l : List (α × DBItem)) : (sortDesc l).Perm l := by
  induction l with
  | nil => simp [sortDesc]
  | cons x xs ih => exact (insertDesc_perm x (sortDesc xs)).trans (ih.cons x)

theorem insertDesc_sorted {x : α × DBItem} {l : List (α × DBItem)}
    (h : l.Pairwise fun a b => b.1 ≤ a.1) :
    (insertDesc x l).Pairwise fun a b => b.1 ≤ a.1 := by
  induction l with
  | nil => simp [insertDesc]
  | cons y ys ih =>
    simp only [insertDesc]
    rcases h with - | ⟨hy, hys⟩
    split
    · rename_i hle
      refine List.Pairwise.cons ?_ (List.Pairwise.cons hy hys)
      intro z hz
      rcases List.mem_cons.mp hz with rfl | hz'
      · exact hle
      · exact le_trans (hy z hz') hle
    · rename_i hnle
      refine List.Pairwise.cons ?_ (ih hys)
      intro z hz
      have hz' := (insertDesc_perm x ys).mem_iff.mp hz
      rcases List.mem_cons.mp hz' with rfl | hz''
      · exact le_of_lt (lt_of_not_le hnle)
      · exact hy z hz''

theorem sortDesc_sorted (l : List (α × DBItem)) :
    (sortDesc l).Pairwise fun a b => b.1 ≤ a.1 := by
  induction l with
  | nil => simp [sortDesc]
  | cons x xs ih => exact insertDesc_sorted ih

/-- If `best` is the unique maximum of `l` by score, the stable
descending sort puts it first. -/
theorem sortDesc_head_of_strict_max {l : List (α × DBItem)}
    {best : α × DBItem} (hmem : best ∈ l)
    (hstrict : ∀ c ∈ l, c ≠ best → c.1 < best.1) :
    ∃ t, sortDesc l = best :: t := by
  have hmem' : best ∈ sortDesc l := (sortDesc_perm l).mem_iff.mpr hmem
  match hsort : sortDesc l with
  | [] => rw [hsort] at hmem'; simp at hmem'
  | h :: t =>
    refine ⟨t, ?_⟩
    rw [hsort] at hmem'
    have hh : h ∈ l := (sortDesc_perm l).mem_iff.mp (by rw [hsort]; exact .head _)
    have hps := sortDesc_sorted l
    rw [hsort] at hps
    rcases hps with - | ⟨hle, -⟩
    by_cases heq : h = best
    · rw [heq]
    · exfalso
      have hlt : h.1 < best.1 := hstrict h hh heq
      rcases List.mem_cons.mp hmem' with heq2 | hbt
      · exact heq heq2.symm
      · exact absurd (hle best hbt) (not_le.mpr hlt)

end SortLemmas

/-! ## Lemmas about the `unique_chunks` dict -/

section DictLemmas

variable {α : Type} [LinearOrder α]

theorem dictFind_eq_none_iff {m : List (String × (α × DBItem))} {k : String} :
    dictFind m k = none ↔ k ∉ m.map Prod.fst := by
  induction m with
  | nil => simp [dictFind]
  | cons p rest ih =>
    obtain ⟨k', v⟩ := p
    by_cases h : k' = k
    · subst h; simp [dictFind]
    · simp [dictFind, h, ih, Ne.symm h]

theorem dictFind_mem {m : List (String × (α × DBItem))} {k : String}
    {v : α × DBItem} (h : dictFind m k = some v) : (k, v) ∈ m := by
  induction m with
  | nil => simp [dictFind] at h
  | cons p rest ih =>
    obtain ⟨k', w⟩ := p
    by_cases hk : k' = k
    · subst hk
      simp [dictFind] at h
      subst h
      exact List.mem_cons_self _ _
    · simp only [dictFind, if_neg hk] at h
      exact List.mem_cons_of_mem _ (ih h)

theorem dictFind_append (m m' : List (String × (α × DBItem))) (k : String) :
    dictFind (m ++ m') k = (dictFind m k).or (dictFind m' k) := by
  induction m with
  | nil => simp [dictFind]
  | cons p rest ih =>
    obtain ⟨k0, w⟩ := p
    by_cases h0 : k0 = k
    · simp [dictFind, h0]
    · simp [dictFind, h0, ih]

/-- The in-place replacement map leaves other keys' slots untouched. -/
theorem dictFind_mapReplace_ne (m : List (String × (α × DBItem)))
    {k k' : String} (v : α × DBItem) (hne : k' ≠ k) :
    dictFind (m.map fun p => if p.1 = k' then (k', v) else p) k =
      dictFind m k := by
  induction m with
  | nil => simp [dictFind]
  | cons p rest ih =>
    obtain ⟨k0, w⟩ := p
    by_cases h1 : k0 = k'
    · subst h1
      simp only [List.map_cons, if_pos rfl]
      by_cases h0 : k0 = k
      · exact absurd h0 hne
      · simp [dictFind, h0, hne, ih]
    · simp only [List.map_cons, if_neg h1]
      by_cases h0 : k0 = k
      · simp [dictFind, h0]
      · simp [dictFind, h0, ih]

/-- The in-place replacement map rebinds an occupied slot to the new
value. -/
theorem dictFind_mapReplace_self {m : List (String × (α × DBItem))}
    {k : String} {w : α × DBItem} (v : α × DBItem)
    (hf : dictFind m k = some w) :
    dictFind (m.map fun p => if p.1 = k then (k, v) else p) k = some v := by
  induction m with
  | nil => simp [dictFind] at hf
  | cons p rest ih =>
    obtain ⟨k0, w0⟩ := p
    by_cases h0 : k0 = k
    · subst h0
      simp only [List.map_cons, if_pos (show (k0, w0).1 = k0 from rfl)]
      simp [dictFind]
    · simp only [dictFind, if_neg h0] at hf
      simp only [List.map_cons, if_neg (show ¬ (k0, w0).1 = k from h0)]
      simp [dictFind, h0, ih hf]

/-- Keys after an upsert: appended when absent, unchanged when present. -/
theorem dictUpsert_keys_of_none {m : List (String × (α × DBItem))}
    {k : String} (v : α × DBItem) (h : dictFind m k = none) :
    (dictUpsert m k v).map Prod.fst = m.map Prod.fst ++ [k] := by
  simp [dictUpsert, h]

theorem dictUpsert_keys_of_some {m : List (String × (α × DBItem))}
    {k : String} {w : α × DBItem} (v : α × DBItem)
    (h : dictFind m k = some w) :
    (dictUpsert m k v).map Prod.fst = m.map Prod.fst := by
  simp only [dictUpsert, h]
  split
  · rw [List.map_map]
    refine List.map_congr_left ?_
    intro p _
    by_cases hp : p.1 = k
    · simp [hp]
    · simp [hp]
  · rfl

/-- Upserting one key does not change what another key finds. -/
theorem dictFind_dictUpsert_ne {m : List (String × (α × DBItem))}
    {k k' : String} (v : α × DBItem) (hne : k' ≠ k) :
    dictFind (dictUpsert m k' v) k = dictFind m k := by
  rcases hf : dictFind m k' with - | w
  · rw [show dictUpsert m k' v = m ++ [(k', v)] from by simp [dictUpsert, hf]]
    rw [dictFind_append]
    simp [dictFind, hne]
  · by_cases hlt : w.1 < v.1
    · rw [show dictUpsert m k' v =
          m.map (fun p => if p.1 = k' then (k', v) else p) from by
        simp [dictUpsert, hf, hlt]]
      exact dictFind_mapReplace_ne m v hne
    · rw [show dictUpsert m k' v = m from by simp [dictUpsert, hf, hlt]]

/-- Finding the upserted key after an upsert into an absent slot. -/
theorem dictFind_dictUpsert_none {m : List (String × (α × DBItem))}
    {k : String} (v : α × DBItem) (h : dictFind m k = none) :
    dictFind (dictUpsert m k v) k = some v := by
  simp [dictUpsert, h, dictFind_append, dictFind]

/-- Finding the upserted key after a replacing upsert. -/
theorem dictFind_dictUpsert_replace {m : List (String × (α × DBItem))}
    {k : String} {w : α × DBItem} (v : α × DBItem)
    (hf : dictFind m k = some w) (hlt : w.1 < v.1) :
    dictFind (dictUpsert m k v) k = some v := by
  simp only [dictUpsert, hf, if_pos hlt]
  exact dictFind_mapReplace_self v hf

/-- A non-replacing upsert into an occupied slot is the identity. -/
theorem dictUpsert_id {m : List (String × (α × DBItem))} {k : String}
    {w : α × DBItem} (v : α × DBItem) (hf : dictFind m k = some w)
    (hge : ¬ w.1 < v.1) : dictUpsert m k v = m := by
  simp [dictUpsert, hf, hge]

/-- Every value in an upserted dict is the new value or an old value. -/
theorem dictUpsert_values {m : List (String × (α × DBItem))} {k : String}
    {v p : _} (hp : p ∈ dictUpsert m k v) :
    p.2 = v ∨ p ∈ m := by
  rcases hf : dictFind m k with - | w
  · rw [show dictUpsert m k v = m ++ [(k, v)] from by simp [dictUpsert, hf]] at hp
    rcases List.mem_append.mp hp with h | h
    · exact .inr h
    · simp at h; exact .inl (by rw [h])
  · by_cases hlt : w.1 < v.1
    · rw [show dictUpsert m k v =
          m.map (fun p => if p.1 = k then (k, v) else p) from by
        simp [dictUpsert, hf, hlt]] at hp
      obtain ⟨q, hq, hqe⟩ := List.mem_map.mp hp
      by_cases hk : q.1 = k
      · rw [if_pos hk] at hqe; exact .inl (by rw [← hqe])
      · rw [if_neg hk] at hqe; exact .inr (hqe ▸ hq)
    · rw [show dictUpsert m k v = m from by simp [dictUpsert, hf, hlt]] at hp
      exact .inr hp

/-- Key/value coherence: each slot's value carries the slot's key. -/
theorem dictUpsert_coherent {m : List (String × (α × DBItem))} {k : String}
    {v : α × DBItem} (hm : ∀ p ∈ m, itemKey p.2.2 = p.1)
    (hv : itemKey v.2 = k) :
    ∀ p ∈ dictUpsert m k v, itemKey p.2.2 = p.1 := by
  intro p hp
  rcases hf : dictFind m k with - | w
  · rw [show dictUpsert m k v = m ++ [(k, v)] from by simp [dictUpsert, hf]] at hp
    rcases List.mem_append.mp hp with h | h
    · exact hm p h
    · simp at h; rw [h]; exact hv
  · by_cases hlt : w.1 < v.1
    · rw [show dictUpsert m k v =
          m.map (fun p => if p.1 = k then (k, v) else p) from by
        simp [dictUpsert, hf, hlt]] at hp
      obtain ⟨q, hq, hqe⟩ := List.mem_map.mp hp
      by_cases hk : q.1 = k
      · rw [if_pos hk] at hqe; rw [← hqe]; exact hv
      · rw [if_neg hk] at hqe; exact hqe ▸ hm q hq
    · rw [show dictUpsert m k v = m from by simp [dictUpsert, hf, hlt]] at hp
      exact hm p hp

end DictLemmas

/-! ## Invariants of the `unique_chunks` fold -/

section FoldLemmas

variable {α : Type} [LinearOrder α]

/-- Abbreviation for one dict-building step of the dedup loop. -/
def upsertStep (m : List (String × (α × DBItem))) (c : α × DBItem) :
    List (String × (α × DBItem)) :=
  dictUpsert m (itemKey c.2) c

theorem upsertStep_def (m : List (String × (α × DBItem))) (c : α × DBItem) :
    upsertStep m c = dictUpsert m (itemKey c.2) c := rfl

theorem uniqueChunks_eq_foldl (pool : List (α × DBItem)) :
    uniqueChunks pool = pool.foldl upsertStep [] := rfl

theorem foldl_upsert_keys_nodup :
    ∀ (pool : List (α × DBItem)) (m : List (String × (α × DBItem))),
      (m.map Prod.fst).Nodup → ((pool.foldl upsertStep m).map Prod.fst).Nodup := by
  intro pool
  induction pool with
  | nil => intro m hm; simpa using hm
  | cons c cs ih =>
    intro m hm
    rw [List.foldl_cons]
    refine ih _ ?_
    rcases hf : dictFind m (itemKey c.2) with - | w
    · rw [upsertStep_def, dictUpsert_keys_of_none c hf]
      have hk : itemKey c.2 ∉ m.map Prod.fst := dictFind_eq_none_iff.mp hf
      exact ((List.perm_append_singleton _ _).nodup_iff).mpr
        (List.nodup_cons.mpr ⟨hk, hm⟩)
    · rw [upsertStep_def, dictUpsert_keys_of_some c hf]
      exact hm

theorem foldl_upsert_coherent :
    ∀ (pool : List (α × DBItem)) (m : List (String × (α × DBItem))),
      (∀ p ∈ m, itemKey p.2.2 = p.1) →
      ∀ p ∈ pool.foldl upsertStep m, itemKey p.2.2 = p.1 := by
  intro pool
  induction pool with
  | nil => intro m hm; simpa using hm
  | cons c cs ih =>
    intro m hm
    rw [List.foldl_cons]
    exact ih _ (dictUpsert_coherent hm rfl)

theorem foldl_upsert_values :
    ∀ (pool : List (α × DBItem)) (m : List (String × (α × DBItem))),
      ∀ p ∈ pool.foldl upsertStep m, p.2 ∈ m.map Prod.snd ∨ p.2 ∈ pool := by
  intro pool
  induction pool with
  | nil => intro m p hp; exact .inl (List.mem_map_of_mem _ hp)
  | cons c cs ih =>
    intro m p hp
    rw [List.foldl_cons] at hp
    rcases ih _ p hp with h | h
    · obtain ⟨q, hq, hqe⟩ := List.mem_map.mp h
      rcases dictUpsert_values hq with h' | h'
      · exact .inr (by rw [← hqe, h']; exact .head _)
      · exact .inl (hqe ▸ List.mem_map_of_mem _ h')
    · exact .inr (.tail _ h)

/-- The key list of the dict evolves exactly as Python's
"insert key if new" fold (`pyDedup`). -/
theorem foldl_upsert_keys_eq :
    ∀ (pool : List (α × DBItem)) (m : List (String × (α × DBItem))),
      (pool.foldl upsertStep m).map Prod.fst =
        pool.foldl
          (fun acc c =>
            if itemKey c.2 ∈ acc then acc else acc ++ [itemKey c.2])
          (m.map Prod.fst) := by
  intro pool
  induction pool with
  | nil => intro m; simp
  | cons c cs ih =>
    intro m
    rw [List.foldl_cons, List.foldl_cons, ih]
    congr 1
    rcases hf : dictFind m (itemKey c.2) with - | w
    · rw [upsertStep_def, dictUpsert_keys_of_none c hf,
        if_neg (dictFind_eq_none_iff.mp hf)]
    · rw [upsertStep_def, dictUpsert_keys_of_some c hf, if_pos ?_]
      have := dictFind_mem hf
      exact List.mem_map.mpr ⟨_, this, rfl⟩

theorem uniqueChunks_keys (pool : List (α × DBItem)) :
    (uniqueChunks pool).map Prod.fst =
      pyDedup (pool.map fun c => itemKey c.2) := by
  rw [uniqueChunks_eq_foldl, foldl_upsert_keys_eq, pyDedup, List.foldl_map]
  rfl

/-- D1: once the slot for `best`'s key holds `best`, a fold over
candidates that never beat `best`'s score leaves it in place. -/
theorem foldl_upsert_keeps_best {best : α × DBItem} :
    ∀ (pool : List (α × DBItem)) (m : List (String × (α × DBItem))),
      (∀ c ∈ pool, c = best ∨ c.1 < best.1) →
      dictFind m (itemKey best.2) = some best →
      dictFind (pool.foldl upsertStep m) (itemKey best.2) = some best := by
  intro pool
  induction pool with
  | nil => intro m _ hm; simpa using hm
  | cons c cs ih =>
    intro m hall hm
    rw [List.foldl_cons]
    refine ih _ (fun d hd => hall d (.tail _ hd)) ?_
    by_cases hk : itemKey c.2 = itemKey best.2
    · have hnlt : ¬ best.1 < c.1 := by
        rcases hall c (.head _) with heq | hlt
        · rw [heq]; exact lt_irrefl _
        · exact not_lt.mpr (le_of_lt hlt)
      have hid : upsertStep m c = m := by
        rw [upsertStep_def, hk]
        exact dictUpsert_id c hm hnlt
      rw [hid]; exact hm
    · rw [upsertStep_def, dictFind_dictUpsert_ne c hk]
      exact hm

/-- D2: folding a pool containing `best`, where nothing beats `best`'s
score, ends with `best` bound to its key. -/
theorem foldl_upsert_finds_best {best : α × DBItem} :
    ∀ (pool : List (α × DBItem)) (m : List (String × (α × DBItem))),
      best ∈ pool →
      (∀ c ∈ pool, c = best ∨ c.1 < best.1) →
      (dictFind m (itemKey best.2) = none ∨
        ∃ w, dictFind m (itemKey best.2) = some w ∧
          (w = best ∨ w.1 < best.1)) →
      dictFind (pool.foldl upsertStep m) (itemKey best.2) = some best := by
  intro pool
  induction pool with
  | nil => intro m hmem; simp at hmem
  | cons c cs ih =>
    intro m hmem hall hinv
    rw [List.foldl_cons]
    by_cases hk : itemKey c.2 = itemKey best.2
    · rcases hall c (.head _) with heq | hlt
      · -- the step upserts `best` itself; afterwards it stays
        have hafter : dictFind (upsertStep m c) (itemKey best.2) = some best := by
          rw [upsertStep_def, hk, heq]
          rcases hinv with hn | ⟨w, hw, hwc⟩
          · exact dictFind_dictUpsert_none best hn
          · rcases hwc with heqw | hlt'
            · subst heqw
              rw [dictUpsert_id w hw (lt_irrefl _)]
              exact hw
            · exact dictFind_dictUpsert_replace best hw hlt'
        exact foldl_upsert_keeps_best cs _
          (fun d hd => hall d (.tail _ hd)) hafter
      · -- the step upserts a strictly weaker candidate into `best`'s slot
        have hbcs : best ∈ cs := by
          rcases List.mem_cons.mp hmem with heq | h
          · exact absurd heq.symm (by intro h'; rw [h'] at hlt; exact lt_irrefl _ hlt)
          · exact h
        refine ih _ hbcs (fun d hd => hall d (.tail _ hd)) ?_
        rw [upsertStep_def, hk]
        rcases hinv with hn | ⟨w, hw, hwc⟩
        · right
          exact ⟨c, dictFind_dictUpsert_none c hn, .inr hlt⟩
        · by_cases hcw : w.1 < c.1
          · exact .inr ⟨c, dictFind_dictUpsert_replace c hw hcw, .inr hlt⟩
          · rw [dictUpsert_id c hw hcw]
            exact .inr ⟨w, hw, hwc⟩
    · -- the step touches another slot
      have hbcs : best ∈ cs := by
        rcases List.mem_cons.mp hmem with heq | h
        · exact absurd (by rw [heq]) hk
        · exact h
      refine ih _ hbcs (fun d hd => hall d (.tail _ hd)) ?_
      rw [upsertStep_def, dictFind_dictUpsert_ne c hk]
      exact hinv

end FoldLemmas

/-! ## Properties of the balanced selection -/

section SelectionProofs

variable {α : Type} [LinearOrder α]

theorem selectedPool_subset {cands : List (α × DBItem)} {limit : Nat}
    {c : α × DBItem} (hc : c ∈ selectedPool cands limit) : c ∈ cands := by
  rcases List.mem_append.mp hc with h | h
  · obtain ⟨src, -, hsrc⟩ := List.mem_flatMap.mp h
    have h1 : c ∈ sortDesc ((sortDesc cands).filter
        fun d => d.2.source_file = src) :=
      (List.take_sublist _ _).mem hsrc
    have h2 := (sortDesc_perm _).mem_iff.mp h1
    have h3 : c ∈ sortDesc cands := List.mem_of_mem_filter h2
    exact (sortDesc_perm _).mem_iff.mp h3
  · have h1 : c ∈ sortDesc cands := (List.take_sublist _ _).mem h
    exact (sortDesc_perm _).mem_iff.mp h1

theorem best_mem_qualityPool {cands : List (α × DBItem)} {limit : Nat}
    {best : α × DBItem} (hlimit : 1 ≤ limit) (hmem : best ∈ cands)
    (hstrict : ∀ c ∈ cands, c ≠ best → c.1 < best.1) :
    best ∈ qualityPool cands limit := by
  obtain ⟨t, ht⟩ := sortDesc_head_of_strict_max hmem hstrict
  rw [qualityPool, ht]
  have : ∃ n, min 6 limit = n + 1 := by
    refine ⟨min 6 limit - 1, ?_⟩
    omega
  obtain ⟨n, hn⟩ := this
  rw [hn, List.take_succ_cons]
  exact .head _

/-- The items of `final_chunks` (with their scores). -/
theorem finalChunks_values {cands : List (α × DBItem)} {limit : Nat}
    {w : α × DBItem} (hw : w ∈ finalChunks cands limit) :
    w ∈ selectedPool cands limit := by
  have h1 := (sortDesc_perm _).mem_iff.mp hw
  obtain ⟨p, hp, hpe⟩ := List.mem_map.mp h1
  have := foldl_upsert_values (selectedPool cands limit) [] p hp
  rcases this with h | h
  · simp at h
  · exact hpe ▸ h

theorem searchSelect_length_eq (cands : List (α × DBItem)) (limit : Nat) :
    (searchSelect cands limit).length =
      min limit
        (pyDedup ((selectedPool cands limit).map fun c => itemKey c.2)).length := by
  rw [searchSelect, List.length_map, List.length_take]
  congr 1
  rw [finalChunks, (sortDesc_perm _).length_eq, List.length_map,
    ← uniqueChunks_keys, List.length_map]

end SelectionProofs

/-! ## Claim C1 -/

/-- Claim C1: for every list of scored candidates and every limit ≥ 1,
the balanced selection returns at most `limit` entries, contains no two
entries with the same `(document_id, chunk_id)` pair, and always
contains the single highest-scoring candidate (any `best` that strictly
beats every other candidate's score). -/
theorem c1_selection_bounded_unique_keeps_best {α : Type} [LinearOrder α]
    (cands : List (α × DBItem)) (limit : Nat) (hlimit : 1 ≤ limit) :
    (searchSelect cands limit).length ≤ limit ∧
    (searchSelect cands limit).Pairwise
      (fun a b => ¬(a.document_id = b.document_id ∧ a.chunk_id = b.chunk_id)) ∧
    (∀ best ∈ cands, (∀ c ∈ cands, c ≠ best → c.1 < best.1) →
      best.2 ∈ searchSelect cands limit) := by
  refine ⟨?_, ?_, ?_⟩
  · rw [searchSelect_length_eq]
    exact min_le_left _ _
  · -- distinct dict keys survive sorting, truncation and projection
    have keysNodup := foldl_upsert_keys_nodup (selectedPool cands limit) []
      (by simp)
    have coh := foldl_upsert_coherent (selectedPool cands limit) [] (by simp)
    have hmapeq :
        ((uniqueChunks (selectedPool cands limit)).map Prod.snd).map
            (fun c => itemKey c.2) =
          (uniqueChunks (selectedPool cands limit)).map Prod.fst := by
      rw [List.map_map]
      exact List.map_congr_left fun p hp => coh p hp
    have hvnodup :
        (((uniqueChunks (selectedPool cands limit)).map Prod.snd).map
          (fun c => itemKey c.2)).Nodup := by
      rw [hmapeq]; exact keysNodup
    have hsnodup :
        ((finalChunks cands limit).map (fun c => itemKey c.2)).Nodup :=
      (((sortDesc_perm _).map _).nodup_iff).mpr hvnodup
    have htake :
        (((finalChunks cands limit).take limit).map fun c => itemKey c.2).Nodup :=
      hsnodup.sublist ((List.take_sublist _ _).map _)
    have hres :
        ((searchSelect cands limit).map itemKey).Nodup := by
      rw [searchSelect, List.map_map]
      exact htake
    apply List.Pairwise.imp ?_ (List.pairwise_map.mp hres)
    intro a b hne
    rintro ⟨hdoc, hchunk⟩
    exact hne (by simp [itemKey, hdoc, hchunk])
  · intro best hmem hstrict
    have hallpool : ∀ c ∈ selectedPool cands limit, c = best ∨ c.1 < best.1 := by
      intro c hc
      by_cases heq : c = best
      · exact .inl heq
      · exact .inr (hstrict c (selectedPool_subset hc) heq)
    have hbestpool : best ∈ selectedPool cands limit :=
      List.mem_append.mpr (.inr (best_mem_qualityPool hlimit hmem hstrict))
    have hfind :
        dictFind (uniqueChunks (selectedPool cands limit)) (itemKey best.2) =
          some best :=
      foldl_upsert_finds_best (selectedPool cands limit) [] hbestpool hallpool
        (.inl rfl)
    have hvals :
        best ∈ (uniqueChunks (selectedPool cands limit)).map Prod.snd :=
      List.mem_map.mpr ⟨_, dictFind_mem hfind, rfl⟩
    have hvstrict :
        ∀ w ∈ (uniqueChunks (selectedPool cands limit)).map Prod.snd,
          w ≠ best → w.1 < best.1 := by
      intro w hw hne
      obtain ⟨p, hp, hpe⟩ := List.mem_map.mp hw
      have := foldl_upsert_values (selectedPool cands limit) [] p hp
      rcases this with h | h
      · simp at h
      · exact hstrict w (selectedPool_subset (hpe ▸ h)) hne
    obtain ⟨t, ht⟩ := sortDesc_head_of_strict_max hvals hvstrict
    rw [searchSelect, finalChunks] at *
    rw [ht]
    obtain ⟨n, hn⟩ : ∃ n, limit = n + 1 := ⟨limit - 1, by omega⟩
    rw [hn, List.take_succ_cons, List.map_cons]
    exact .head _

/-- Witness for C1 at a concrete input. -/
theorem c1_selection_bounded_unique_keeps_best_witness :
    1 ≤ 1 ∧
    ((searchSelect [((5 : Int),
        ⟨"doc", "chunk_0", "file.pdf", "contents", none⟩)] 1).length ≤ 1 ∧
    (searchSelect [((5 : Int),
        ⟨"doc", "chunk_0", "file.pdf", "contents", none⟩)] 1).Pairwise
      (fun a b => ¬(a.document_id = b.document_id ∧ a.chunk_id = b.chunk_id)) ∧
    (∀ best ∈ [((5 : Int), (⟨"doc", "chunk_0", "file.pdf", "contents", none⟩ : DBItem))],
      (∀ c ∈ [((5 : Int), (⟨"doc", "chunk_0", "file.pdf", "contents", none⟩ : DBItem))],
          c ≠ best → c.1 < best.1) →
      best.2 ∈ searchSelect [((5 : Int),
        ⟨"doc", "chunk_0", "file.pdf", "contents", none⟩)] 1)) :=
  ⟨le_refl 1, c1_selection_bounded_unique_keeps_best _ 1 (le_refl 1)⟩

/-! ## Claim C5 -/

/-- The ten scored candidates refuting claim C5: one document with the
eight best-scored chunks, a second document with two low-scored chunks. -/
def exC5 : List (Int × DBItem) :=
  [(80, ⟨"a", "c0", "a.pdf", "", none⟩),
   (79, ⟨"a", "c1", "a.pdf", "", none⟩),
   (78, ⟨"a", "c2", "a.pdf", "", none⟩),
   (77, ⟨"a", "c3", "a.pdf", "", none⟩),
   (76, ⟨"a", "c4", "a.pdf", "", none⟩),
   (75, ⟨"a", "c5", "a.pdf", "", none⟩),
   (74, ⟨"a", "c6", "a.pdf", "", none⟩),
   (73, ⟨"a", "c7", "a.pdf", "", none⟩),
   (2, ⟨"b", "c0", "b.pdf", "", none⟩),
   (1, ⟨"b", "c1", "b.pdf", "", none⟩)]

/-- Counterexample to claim C5 as stated: ten distinct scored candidates
exist (10 ≥ limit = 10), yet the selection returns only eight entries —
`chunks_per_document = max(2, 10 div 2) = 5` caps document `a` at five
chunks in the balanced pool, and the quality pool adds only the global
top `min(6, 10) = 6`, so the deduplicated union has eight keys. -/
theorem c5_counterexample :
    (searchSelect exC5 10).length < 10 ∧
    (pyDedup (exC5.map fun c => itemKey c.2)).length = 10 := by decide

/-- Claim C5 (amended): the returned sequence has fewer than `limit`
entries only if the deduplicated union of the per-document balanced
pools and the global quality pool contains fewer than `limit` distinct
`(document_id, chunk_id)` keys. -/
theorem c5_short_only_if_pool_short {α : Type} [LinearOrder α]
    (cands : List (α × DBItem)) (limit : Nat)
    (h : (searchSelect cands limit).length < limit) :
    (pyDedup ((selectedPool cands limit).map fun c => itemKey c.2)).length <
      limit := by
  rw [searchSelect_length_eq] at h
  rcases min_lt_iff.mp h with h1 | h2
  · exact absurd h1 (lt_irrefl _)
  · exact h2

/-- Witness for the amended C5 at a concrete input. -/
theorem c5_short_only_if_pool_short_witness :
    (searchSelect ([] : List (Int × DBItem)) 1).length < 1 ∧
    (pyDedup ((selectedPool ([] : List (Int × DBItem)) 1).map
      fun c => itemKey c.2)).length < 1 :=
  ⟨by decide, c5_short_only_if_pool_short [] 1 (by decide)⟩

/-! ## Claim C2 -/

/-- Claim C2 (code behaviour at the failing input): on the non-empty
text `"abc"` of length 3 < chunk_size 10, with chunk_overlap 2 and
max_chunks 5, `split_text` returns five chunks — the whole text followed
by four copies of the tail `"bc"` — rather than exactly one chunk; the
cursor update `start = end - chunk_overlap` never passes the end of the
text once `end` is clipped, so the loop re-emits the tail until the
`max_chunks` bound stops it.  On empty text it does return zero chunks. -/
theorem c2_split_text_failing_input :
    split_text "abc" 10 2 5 = ["abc", "bc", "bc", "bc", "bc"] ∧
    split_text "" 10 2 5 = [] := by
  exact ⟨rfl, rfl⟩

/-! ## Claim C9 -/

/-- Claim C9: for every text, chunk_size > 0, chunk_overlap and
max_chunks ≥ 1, the `split_text` loop terminates — it completes within
`max_chunks + 1` iterations (the fuelled loop does not run out) — and
emits at most `max_chunks` chunks. -/
theorem c9_split_text_terminates_and_bounded (text : String)
    (chunk_size chunk_overlap max_chunks : Nat)
    (hcs : 0 < chunk_size) (hmc : 1 ≤ max_chunks) :
    splitTextFuel text chunk_size chunk_overlap (max_chunks + 1) max_chunks 0 =
      some (split_text text chunk_size chunk_overlap max_chunks) ∧
    (split_text text chunk_size chunk_overlap max_chunks).length ≤ max_chunks :=
  ⟨splitTextFuel_complete text chunk_size chunk_overlap (max_chunks + 1)
      max_chunks 0 (by omega),
   splitTextGo_length_le text chunk_size chunk_overlap max_chunks 0⟩

/-- Witness for C9 at a concrete input with zero overlap. -/
theorem c9_split_text_terminates_and_bounded_witness :
    0 < 10 ∧ 1 ≤ 5 ∧
    (splitTextFuel "abc" 10 0 (5 + 1) 5 0 = some (split_text "abc" 10 0 5) ∧
      (split_text "abc" 10 0 5).length ≤ 5) :=
  ⟨by decide, by decide,
    c9_split_text_terminates_and_bounded "abc" 10 0 5 (by decide) (by decide)⟩

/-! ## Claim C4 -/

/-- Counterexample to claim C4 as stated: a pdf of 50,000 bytes does not
get the `medium` parameters (2500/375/50) — 50,000 bytes is below the
100KB = 102,400-byte breakpoint, so it is `small`. -/
theorem c4_counterexample :
    get_chunking_parameters 50000 "PDF" ≠
      { chunk_size := 2500, chunk_overlap := 375, max_chunks := 50,
        size_category := "medium" } := by decide

/-- Claim C4 (amended): for a pdf document of 50,000 bytes,
`ChunkingConfig.get_chunking_parameters` returns size_category `small`,
chunk_size 2000, chunk_overlap 300 (15% of 2000) and max_chunks 20. -/
theorem c4_pdf_50000_bytes_params :
    get_chunking_parameters 50000 "PDF" =
      { chunk_size := 2000, chunk_overlap := 300, max_chunks := 20,
        size_category := "small" } := by decide

/-! ## Bounds on the similarity score -/

theorem sumSq_nonneg (v : List ℝ) : 0 ≤ sumSq v := by
  induction v with
  | nil => simp [sumSq]
  | cons x xs ih =>
    simp only [sumSq]
    have := mul_self_nonneg x
    linarith

/-- Cauchy-Schwarz induction step. -/
theorem cauchySchwarz_step (x y d A B : ℝ) (hd : d ^ 2 ≤ A * B)
    (hA : 0 ≤ A) (hB : 0 ≤ B) :
    (x * y + d) ^ 2 ≤ (x * x + A) * (y * y + B) := by
  have hE : 0 ≤ x * x * B + y * y * A - 2 * (x * y * d) := by
    rcases eq_or_lt_of_le hA with hA0 | hApos
    · have hd2 : d ^ 2 ≤ 0 := by
        rw [← hA0] at hd
        linarith [hd, mul_nonneg (le_refl (0 : ℝ)) hB]
      have hd0 : d = 0 := by nlinarith [sq_nonneg d]
      rw [hd0]
      have h1 : 0 ≤ x * x * B := mul_nonneg (mul_self_nonneg x) hB
      have h2 : 0 ≤ y * y * A := mul_nonneg (mul_self_nonneg y) hA
      linarith
    · nlinarith [sq_nonneg (x * d - y * A),
        mul_nonneg (mul_self_nonneg x) (sub_nonneg.mpr hd)]
  nlinarith [hE, hd]

/-- Cauchy-Schwarz for the zipped dot product against the full vectors'
sums of squares. -/
theorem dotProduct_sq_le (a : List ℝ) :
    ∀ b : List ℝ, (dotProduct a b) ^ 2 ≤ sumSq a * sumSq b := by
  induction a with
  | nil =>
    intro b
    simp [dotProduct, sumSq]
  | cons x xs ih =>
    intro b
    cases b with
    | nil => simp [dotProduct, sumSq]
    | cons y ys =>
      simp only [dotProduct, sumSq]
      exact cauchySchwarz_step x y _ _ _ (ih ys) (sumSq_nonneg xs) (sumSq_nonneg ys)

theorem abs_dotProduct_le (a b : List ℝ) :
    |dotProduct a b| ≤ magnitude a * magnitude b := by
  rw [← Real.sqrt_sq_eq_abs, magnitude, magnitude, ← Real.sqrt_mul (sumSq_nonneg a)]
  exact Real.sqrt_le_sqrt (dotProduct_sq_le a b)

theorem abs_cosine_similarity_le_one (v1 v2 : List ℝ) :
    |cosine_similarity v1 v2| ≤ 1 := by
  unfold cosine_similarity
  split_ifs with h
  · simp
  · push_neg at h
    obtain ⟨h1, h2⟩ := h
    have hm1 : 0 < magnitude v1 :=
      lt_of_le_of_ne (Real.sqrt_nonneg _) (Ne.symm h1)
    have hm2 : 0 < magnitude v2 :=
      lt_of_le_of_ne (Real.sqrt_nonneg _) (Ne.symm h2)
    have hprod : 0 < magnitude v1 * magnitude v2 := mul_pos hm1 hm2
    rw [abs_div, abs_of_pos hprod]
    exact (div_le_one hprod).mpr (abs_dotProduct_le v1 v2)

theorem lengthBonus_nonneg (content : String) : 0 ≤ lengthBonus content :=
  le_min (div_nonneg (Nat.cast_nonneg _) (by norm_num)) (by norm_num)

theorem lengthBonus_le (content : String) : lengthBonus content ≤ 0.15 :=
  min_le_right _ _

/-! ## Claim C3 -/

/-- Counterexample to claim C3 as stated: for the query vector `[1]`,
candidate embedding `[-1]` and empty content, the score is `-1`, outside
the claimed interval `[0, 1.15]` — cosine similarity of opposed vectors
is negative, and the code does not clamp it. -/
theorem c3_counterexample : finalScore [1] [-1] "" < 0 := by
  have h1 : sumSq [(1 : ℝ)] = 1 := by norm_num [sumSq]
  have h2 : sumSq [(-1 : ℝ)] = 1 := by norm_num [sumSq]
  have hm1 : magnitude [(1 : ℝ)] = 1 := by rw [magnitude, h1, Real.sqrt_one]
  have hm2 : magnitude [(-1 : ℝ)] = 1 := by rw [magnitude, h2, Real.sqrt_one]
  have hcos : cosine_similarity [1] [-1] = -1 := by
    rw [cosine_similarity, if_neg (by rw [hm1, hm2]; norm_num), hm1, hm2]
    norm_num [dotProduct]
  have hbonus : lengthBonus "" = 0 := by
    rw [lengthBonus]
    norm_num
  rw [finalScore, hcos, hbonus]
  norm_num

/-- Claim C3 (amended): for every query vector and candidate record, the
similarity score equals cosine similarity (0 for a zero-magnitude
vector) plus `min(len(content)/800, 0.15)`, and lies in `[-1, 1.15]`
(the cosine component lies in `[-1, 1]`, not `[0, 1]`). -/
theorem c3_score_formula_and_bounds (query_embedding emb : List ℝ)
    (content : String) :
    finalScore query_embedding emb content =
      cosine_similarity query_embedding emb +
        min ((content.length : ℝ) / 800) 0.15 ∧
    -1 ≤ finalScore query_embedding emb content ∧
    finalScore query_embedding emb content ≤ 1.15 := by
  refine ⟨rfl, ?_, ?_⟩
  · have hc := (abs_le.mp (abs_cosine_similarity_le_one query_embedding emb)).1
    have hb := lengthBonus_nonneg content
    rw [finalScore]
    linarith
  · have hc := (abs_le.mp (abs_cosine_similarity_le_one query_embedding emb)).2
    have hb := lengthBonus_le content
    rw [finalScore]
    have : (0.15 : ℝ) + 1 = 1.15 := by norm_num
    linarith

/-! ## Characterisation of the ingestion loop -/

theorem ingestGo_spec (meta : IngestMeta)
    (embedder : Nat → Nat → Except String (List ℚ)) (total : Nat) :
    ∀ (l : List (Nat × String)) (st : IngestState),
      ingestGo meta embedder total l st =
        { stored := st.stored ++ (l.filter (storedAt embedder)).map
            (fun p => mkStored meta total p.1 p.2
              (okEmb (embedWithRetry (embedder p.1)).1))
          processed := st.processed + (l.filter (storedAt embedder)).length
          failed := st.failed + (l.filter (failedAt embedder)).length } := by
  intro l
  induction l with
  | nil => intro st; simp [ingestGo]
  | cons p rest ih =>
    intro st
    obtain ⟨i, c⟩ := p
    rw [ingestGo, ih]
    by_cases hskip : chunkSkipped c
    · have h1 : storedAt embedder (i, c) = false := by
        simp [storedAt, hskip]
      have h2 : failedAt embedder (i, c) = false := by
        simp [failedAt, hskip]
      simp [processChunk, hskip, List.filter_cons, h1, h2]
    · rcases hr : (embedWithRetry (embedder i)).1 with msg | emb
      · have h1 : storedAt embedder (i, c) = false := by
          simp [storedAt, hskip, hr, Except.isOk, Except.toBool]
        have h2 : failedAt embedder (i, c) = true := by
          simp [failedAt, hskip, hr, Except.isOk, Except.toBool]
        simp only [processChunk, if_neg hskip, hr, List.filter_cons, h1, h2]
        simp [IngestState.mk.injEq, Nat.add_comm, Nat.add_left_comm]
      · have h1 : storedAt embedder (i, c) = true := by
          simp [storedAt, hskip, hr, Except.isOk, Except.toBool]
        have h2 : failedAt embedder (i, c) = false := by
          simp [failedAt, hskip, hr, Except.isOk, Except.toBool]
        have hemb : okEmb (embedWithRetry (embedder i)).1 = emb := by
          rw [hr]; rfl
        simp only [processChunk, if_neg hskip, hr, List.filter_cons, h1, h2]
        simp [hemb, hr, okEmb, Nat.add_comm, Nat.add_left_comm]

theorem ingestChunks_spec (meta : IngestMeta)
    (embedder : Nat → Nat → Except String (List ℚ)) (chunks : List String) :
    ingestChunks meta embedder chunks =
      { stored := (chunks.enum.filter (storedAt embedder)).map
          (fun p => mkStored meta chunks.length p.1 p.2
            (okEmb (embedWithRetry (embedder p.1)).1))
        processed := (chunks.enum.filter (storedAt embedder)).length
        failed := (chunks.enum.filter (failedAt embedder)).length } := by
  rw [ingestChunks, ingestGo_spec]
  simp

/-! ## Behaviour of the retry loop -/

theorem embedWithRetry_all_fail (f : Nat → Except String (List ℚ))
    (msgs : Nat → String) (h : ∀ a < 3, f a = .error (msgs a)) :
    embedWithRetry f = (.error (msgs 2), [2 ^ 0, 2 ^ 1]) := by
  have h0 := h 0 (by norm_num)
  have h1 := h 1 (by norm_num)
  have h2 := h 2 (by norm_num)
  show embedRetryGo f (List.range max_retries) = _
  rw [show List.range max_retries = [0, 1, 2] from rfl]
  rw [embedRetryGo, h0]
  rw [embedRetryGo, h1]
  rw [embedRetryGo, h2]

theorem embedWithRetry_first_ok (f : Nat → Except String (List ℚ))
    (e : List ℚ) (h : f 0 = .ok e) : embedWithRetry f = (.ok e, []) := by
  show embedRetryGo f (List.range max_retries) = _
  rw [show List.range max_retries = [0, 1, 2] from rfl]
  rw [embedRetryGo, h]

/-! ## Enumeration and range helpers -/

theorem mem_enumFrom_spec :
    ∀ (cs : List String) (n : Nat) (p : Nat × String), p ∈ cs.enumFrom n →
      n ≤ p.1 ∧ p.1 < n + cs.length ∧ p.2 ∈ cs := by
  intro cs
  induction cs with
  | nil => intro n p hp; simp [List.enumFrom] at hp
  | cons c rest ih =>
    intro n p hp
    rw [List.enumFrom] at hp
    rcases List.mem_cons.mp hp with rfl | hp'
    · refine ⟨le_refl _, ?_, .head _⟩
      simp
    · obtain ⟨h1, h2, h3⟩ := ih (n + 1) p hp'
      refine ⟨by omega, ?_, .tail _ h3⟩
      simp only [List.length_cons]
      omega

theorem mem_enum_spec (cs : List String) (p : Nat × String)
    (hp : p ∈ cs.enum) : p.1 < cs.length ∧ p.2 ∈ cs := by
  obtain ⟨-, h2, h3⟩ := mem_enumFrom_spec cs 0 p hp
  exact ⟨by omega, h3⟩

theorem map_fst_filter_fst (pred : Nat → Bool) :
    ∀ l : List (Nat × String),
      (l.filter fun p => pred p.1).map Prod.fst =
        (l.map Prod.fst).filter pred := by
  intro l
  induction l with
  | nil => simp
  | cons p rest ih =>
    by_cases hp : pred p.1
    · simp [List.filter_cons, hp, ih]
    · simp [List.filter_cons, hp, ih]

theorem range_filter_eq_single {n j : Nat} (hj : j < n) :
    (List.range n).filter (fun k => k = j) = [j] := by
  induction n with
  | zero => omega
  | succ m ih =>
    rw [List.range_succ, List.filter_append]
    by_cases hjm : j = m
    · subst hjm
      have : (List.range j).filter (fun k => k = j) = [] := by
        apply List.filter_eq_nil_iff.mpr
        intro k hk
        have := List.mem_range.mp hk
        simp
        omega
      simp [this]
    · have hlt : j < m := by omega
      rw [ih hlt]
      simp [Ne.symm hjm, hjm]

theorem range_filter_ne_all {n j : Nat} (hj : n ≤ j) :
    (List.range n).filter (fun k => ¬ k = j) = List.range n := by
  apply List.filter_eq_self.mpr
  intro k hk
  have := List.mem_range.mp hk
  simp
  omega

theorem range_filter_ne_length {n j : Nat} (hj : j < n) :
    ((List.range n).filter (fun k => ¬ k = j)).length = n - 1 := by
  induction n with
  | zero => omega
  | succ m ih =>
    rw [List.range_succ, List.filter_append]
    by_cases hjm : j = m
    · subst hjm
      rw [range_filter_ne_all (le_refl _)]
      simp
    · have hlt : j < m := by omega
      rw [List.length_append, ih hlt]
      have : (List.filter (fun k => decide ¬k = j) [m]).length = 1 := by
        simp [Ne.symm hjm, hjm]
      rw [this]
      omega

/-! ## Claim C7 -/

/-- Claim C7: when every chunk is long enough, chunk `j`'s embedding
call fails on all of its (up to) 3 attempts, and every other chunk's
embedding succeeds, then: the retry loop for chunk `j` returns the last
attempt's error after sleeping `2^0` and `2^1` seconds (exponential
backoff); chunk `j` is not stored; `chunks_failed` is exactly 1; and all
remaining chunks are still processed and stored. -/
theorem c7_failed_chunk_skipped_rest_stored (meta : IngestMeta)
    (embedder : Nat → Nat → Except String (List ℚ)) (chunks : List String)
    (j : Nat) (msgs : Nat → String) (embs : Nat → List ℚ)
    (hj : j < chunks.length)
    (hviable : ∀ c ∈ chunks, ¬ chunkSkipped c)
    (hfail : ∀ a < 3, embedder j a = .error (msgs a))
    (hok : ∀ i < chunks.length, i ≠ j → embedder i 0 = .ok (embs i)) :
    (ingestChunks meta embedder chunks).failed = 1 ∧
    (ingestChunks meta embedder chunks).processed = chunks.length - 1 ∧
    (ingestChunks meta embedder chunks).stored.map (fun s => s.chunk_index) =
      (List.range chunks.length).filter (fun k => ¬ k = j) ∧
    embedWithRetry (embedder j) = (.error (msgs 2), [2 ^ 0, 2 ^ 1]) := by
  have hretj : embedWithRetry (embedder j) = (.error (msgs 2), [2 ^ 0, 2 ^ 1]) :=
    embedWithRetry_all_fail (embedder j) msgs hfail
  have hstored : ∀ p ∈ chunks.enum,
      storedAt embedder p = decide (¬ p.1 = j) := by
    intro p hp
    obtain ⟨hlt, hmem⟩ := mem_enum_spec chunks p hp
    have hskip : ¬ chunkSkipped p.2 := hviable p.2 hmem
    by_cases hpj : p.1 = j
    · rw [storedAt, hpj, hretj]
      simp [hskip, Except.isOk, Except.toBool, hpj]
    · have := embedWithRetry_first_ok (embedder p.1) (embs p.1) (hok p.1 hlt hpj)
      rw [storedAt, this]
      simp [hskip, Except.isOk, Except.toBool, hpj]
  have hfailed : ∀ p ∈ chunks.enum,
      failedAt embedder p = decide (p.1 = j) := by
    intro p hp
    obtain ⟨hlt, hmem⟩ := mem_enum_spec chunks p hp
    have hskip : ¬ chunkSkipped p.2 := hviable p.2 hmem
    by_cases hpj : p.1 = j
    · rw [failedAt, hpj, hretj]
      simp [hskip, Except.isOk, Except.toBool, hpj]
    · have := embedWithRetry_first_ok (embedder p.1) (embs p.1) (hok p.1 hlt hpj)
      rw [failedAt, this]
      simp [hskip, Except.isOk, Except.toBool, hpj]
  rw [ingestChunks_spec]
  have hsf : chunks.enum.filter (storedAt embedder) =
      chunks.enum.filter fun p => ¬ p.1 = j :=
    List.filter_congr hstored
  have hff : chunks.enum.filter (failedAt embedder) =
      chunks.enum.filter fun p => p.1 = j :=
    List.filter_congr hfailed
  have hmapfst :
      (chunks.enum.filter fun p => ¬ p.1 = j).map Prod.fst =
        (List.range chunks.length).filter fun k => ¬ k = j := by
    rw [map_fst_filter_fst (fun k => ¬ k = j) chunks.enum, List.enum_map_fst]
  refine ⟨?_, ?_, ?_, hretj⟩
  · rw [hff]
    have :
        (chunks.enum.filter fun p => p.1 = j).map Prod.fst =
          (List.range chunks.length).filter fun k => k = j := by
      rw [map_fst_filter_fst (fun k => k = j) chunks.enum, List.enum_map_fst]
    have hlen := congrArg List.length this
    rw [List.length_map] at hlen
    rw [hlen, range_filter_eq_single hj]
    rfl
  · rw [hsf]
    have hlen := congrArg List.length hmapfst
    rw [List.length_map] at hlen
    rw [hlen, range_filter_ne_length hj]
  · rw [hsf, List.map_map]
    have :
        ((fun s => s.chunk_index) ∘ fun p =>
            mkStored meta chunks.length p.1 p.2
              (okEmb (embedWithRetry (embedder p.1)).1)) =
          Prod.fst := by
      funext p
      rfl
    rw [this, hmapfst]

/-! ## Claim C8 -/

/-- Example ingestion metadata for the C8 counterexample. -/
def meta0 : IngestMeta :=
  { document_id := "doc-1", source_file := "report.pdf", file_type := "PDF"
    file_size := 50000, size_category := "small", created_at := "t0" }

/-- Three viable chunks (each 50 characters after trimming). -/
def chunks0 : List String :=
  ["aaaaaaaaaaaaaaaaaaaaaaaaaaaaaaaaaaaaaaaaaaaaaaaaaa",
   "bbbbbbbbbbbbbbbbbbbbbbbbbbbbbbbbbbbbbbbbbbbbbbbbbb",
   "cccccccccccccccccccccccccccccccccccccccccccccccccc"]

/-- An embedding oracle that fails every attempt for chunk 1 and
succeeds immediately for every other chunk. -/
def embedder0 : Nat → Nat → Except String (List ℚ) :=
  fun i _ => if i = 1 then .error "transient" else .ok [1]

/-- Counterexample to claim C8 as stated: when chunk 1's embedding
fails all retries, the stored `chunk_index` values are `[0, 2]` with
`total_chunks = 3` — not the contiguous range `0..2`. -/
theorem c8_counterexample :
    (ingestChunks meta0 embedder0 chunks0).stored.map (fun s => s.chunk_index) =
        [0, 2] ∧
    (ingestChunks meta0 embedder0 chunks0).stored.map (fun s => s.total_chunks) =
        [3, 3] ∧
    ([0, 2] : List Nat) ≠ List.range 3 := by decide

/-- Claim C8 (amended): the `chunk_index` values of the stored chunks of
one document are exactly the enumeration indices of the chunks that pass
the minimum-length filter and whose embedding call succeeds after
retries, in increasing order — a subsequence of `0..total_chunks-1` that
equals the full contiguous range exactly when no chunk is skipped or
fails; and every stored chunk records `total_chunks = len(chunks)`. -/
theorem c8_stored_chunk_indices (meta : IngestMeta)
    (embedder : Nat → Nat → Except String (List ℚ)) (chunks : List String) :
    (ingestChunks meta embedder chunks).stored.map (fun s => s.chunk_index) =
      (chunks.enum.filter (storedAt embedder)).map Prod.fst ∧
    ∀ s ∈ (ingestChunks meta embedder chunks).stored,
      s.total_chunks = chunks.length := by
  rw [ingestChunks_spec]
  constructor
  · rw [List.map_map]
    rfl
  · intro s hs
    obtain ⟨p, -, hpe⟩ := List.mem_map.mp hs
    rw [← hpe]
    rfl

/-- Witness for C7 at a concrete input. -/
theorem c7_failed_chunk_skipped_rest_stored_witness :
    (1 < chunks0.length ∧ (∀ c ∈ chunks0, ¬ chunkSkipped c)) ∧
    ((ingestChunks meta0 embedder0 chunks0).failed = 1 ∧
     (ingestChunks meta0 embedder0 chunks0).processed = chunks0.length - 1 ∧
     (ingestChunks meta0 embedder0 chunks0).stored.map (fun s => s.chunk_index) =
       (List.range chunks0.length).filter (fun k => ¬ k = 1) ∧
     embedWithRetry (embedder0 1) =
       (.error ((fun _ : Nat => "transient") 2), [2 ^ 0, 2 ^ 1])) :=
  ⟨⟨by decide, by decide⟩,
    c7_failed_chunk_skipped_rest_stored meta0 embedder0 chunks0 1
      (fun _ => "transient") (fun _ => [1]) (by decide) (by decide)
      (fun _ _ => rfl)
      (by intro i hi hne
          have hi3 : i < 3 := by simpa [chunks0] using hi
          interval_cases i
          · rfl
          · exact absurd rfl hne
          · rfl)⟩

/-! ## Claim C6 -/

/-- A selected chunk for the C6 scenario. -/
def exItemC6 : DBItem :=
  { document_id := "d1", chunk_id := "chunk_0", source_file := "a.pdf"
    content := "Relevant text.", embedding := none }

/-- Counterexample to claim C6 as stated: when the language-model
provider fails with message `"boom"`, the handler does return a
success-shaped 200 response, but the `answer` text is not the provider's
error message itself — it is the message embedded after the fixed notice
`"Error: Unable to generate response. "`. -/
theorem c6_counterexample :
    (lambda_handler_query (fun _ => .error "boom") "What is it?"
        [exItemC6]).status = 200 ∧
    (lambda_handler_query (fun _ => .error "boom") "What is it?"
        [exItemC6]).answerText =
      some ("Error: Unable to generate response. boom") ∧
    (lambda_handler_query (fun _ => .error "boom") "What is it?"
        [exItemC6]).answerText ≠ some "boom" := by
  have h2 : (lambda_handler_query (fun _ => .error "boom") "What is it?"
      [exItemC6]).answerText =
      some ("Error: Unable to generate response. boom") := rfl
  exact ⟨rfl, h2, by rw [h2]; decide⟩

/-- Claim C6 (amended): for every query whose chunk selection is
non-empty, a language-model provider failure is not propagated as a
pipeline error — the handler still returns a success-shaped (200)
response whose `answer` text is the provider's error message embedded
after the fixed notice `"Error: Unable to generate response. "`. -/
theorem c6_llm_failure_not_propagated (provider : String → Except String String)
    (query : String) (similar_chunks : List DBItem) (msg : String)
    (hq : pyStrip query ≠ "") (hc : similar_chunks ≠ [])
    (hp : ∀ prompt, provider prompt = .error msg) :
    (lambda_handler_query provider query similar_chunks).status = 200 ∧
    (lambda_handler_query provider query similar_chunks).answerText =
      some ("Error: Unable to generate response. " ++ msg) := by
  have hne : similar_chunks.isEmpty = false := by
    cases similar_chunks with
    | nil => exact absurd rfl hc
    | cons c cs => rfl
  constructor <;>
    simp [lambda_handler_query, hq, hne, invoke_claude_3, hp,
      HandlerResult.status, HandlerResult.answerText]

/-- Witness for the amended C6 at a concrete input. -/
theorem c6_llm_failure_not_propagated_witness :
    (pyStrip "What is it?" ≠ "" ∧ ([exItemC6] : List DBItem) ≠ []) ∧
    ((lambda_handler_query (fun _ => .error "boom") "What is it?"
        [exItemC6]).status = 200 ∧
     (lambda_handler_query (fun _ => .error "boom") "What is it?"
        [exItemC6]).answerText =
       some ("Error: Unable to generate response. " ++ "boom")) :=
  ⟨⟨by decide, List.cons_ne_nil _ _⟩,
    c6_llm_failure_not_propagated (fun _ => .error "boom") "What is it?"
      [exItemC6] "boom" (by decide) (List.cons_ne_nil _ _) (fun _ => rfl)⟩

/-! ## Claim C10 -/

theorem scoreCandidates_mem (query_embedding : List ℝ) {it : DBItem}
    {emb : List ℝ} (hemb : it.embedding = some emb) :
    ∀ l : List DBItem, it ∈ l →
      (finalScore query_embedding emb it.content, it) ∈
        scoreCandidates query_embedding l := by
  intro l
  induction l with
  | nil => intro h; simp at h
  | cons c cs ih =>
    intro h
    rcases List.mem_cons.mp h with rfl | h'
    · simp [scoreCandidates, hemb]
    · cases hce : c.embedding with
      | none =>
        simp only [scoreCandidates, hce]
        exact ih h'
      | some e =>
        simp only [scoreCandidates, hce]
        exact List.mem_cons_of_mem _ (ih h')

/-- Claim C10: a scanned record whose stored embedding cannot be parsed
does not abort the query — that record alone is dropped from the scored
candidates, and every remaining parseable record is still scored (with
its cosine-plus-bonus score) and eligible for selection. -/
theorem c10_unparseable_record_skipped (query_embedding : List ℝ)
    (pre post : List DBItem) (bad : DBItem) (hbad : bad.embedding = none) :
    scoreCandidates query_embedding (pre ++ bad :: post) =
      scoreCandidates query_embedding (pre ++ post) ∧
    ∀ it ∈ pre ++ post, ∀ emb, it.embedding = some emb →
      (finalScore query_embedding emb it.content, it) ∈
        scoreCandidates query_embedding (pre ++ bad :: post) := by
  have hskip : scoreCandidates query_embedding (pre ++ bad :: post) =
      scoreCandidates query_embedding (pre ++ post) := by
    induction pre with
    | nil => simp [scoreCandidates, hbad]
    | cons p ps ih =>
      cases hpe : p.embedding <;> simp [scoreCandidates, hpe, ih]
  refine ⟨hskip, ?_⟩
  intro it hit emb hemb
  rw [hskip]
  exact scoreCandidates_mem query_embedding hemb _ hit

/-- A record with an unparseable embedding for the C10 witness. -/
def badC10 : DBItem :=
  { document_id := "d9", chunk_id := "chunk_3", source_file := "b.pdf"
    content := "junk", embedding := none }

/-- Witness for C10 at a concrete input. -/
theorem c10_unparseable_record_skipped_witness :
    badC10.embedding = none ∧
    (scoreCandidates [0] ([] ++ badC10 :: []) =
        scoreCandidates [0] ([] ++ []) ∧
      ∀ it ∈ ([] ++ [] : List DBItem), ∀ emb, it.embedding = some emb →
        (finalScore [0] emb it.content, it) ∈
          scoreCandidates [0] ([] ++ badC10 :: [])) :=
  ⟨rfl, c10_unparseable_record_skipped [0] [] [] badC10 rfl⟩

/-- Witness for the amended C8 at a concrete input. -/
theorem c8_stored_chunk_indices_witness :
    (ingestChunks meta0 embedder0 chunks0).stored.map (fun s => s.chunk_index) =
      (chunks0.enum.filter (storedAt embedder0)).map Prod.fst ∧
    ∀ s ∈ (ingestChunks meta0 embedder0 chunks0).stored,
      s.total_chunks = chunks0.length :=
  c8_stored_chunk_indices meta0 embedder0 chunks0

end FullStackAssistant
